import Mathlib

/-!
Shallow embedding of the aico-ai change-review pipeline: diff segmentation
(`getDiffChunks`), reviewer-reply parsing (`parseAIResponse`), CI output
formatting (`formatJSON` summary, `escapeXml`, `getExitCode`,
`filterBySeverity`), and the batch dispatch loops of the CLI.

JavaScript strings are modelled as `List Char` (`JStr`); `undefined` string
fields are modelled with `Option`.
-/

/-- JavaScript strings, modelled as lists of characters. -/
abbrev JStr := List Char

/-- The JavaScript line terminators (`\n`, `\r`, U+2028, U+2029): the
characters after which a multiline `^` anchor matches and which `.` in a
regex does not match. -/
def isLineTerm (c : Char) : Bool :=
  c == '\n' || c == '\r' || c == '\u2028' || c == '\u2029'

/-- Whitespace characters removed by JavaScript `String.prototype.trim`
(ASCII whitespace, NBSP and BOM). -/
def isJsSpace (c : Char) : Bool :=
  c == ' ' || c == '\t' || c == '\n' || c == '\r' || c == '\u000b' ||
  c == '\u000c' || c == '\u00a0' || c == '\ufeff'

/-- JavaScript `str.trim()`. -/
def jsTrim (s : JStr) : JStr :=
  ((s.dropWhile isJsSpace).reverse.dropWhile isJsSpace).reverse

/-- A structured finding, as produced by `parseAIResponse` and consumed by
the formatters.  `severity` is `none` when the JavaScript object has no
`severity` property (`undefined`). -/
structure Finding where
  file : String
  issue : String
  suggestion : String
  severity : Option String
deriving DecidableEq, Repr

/-! ### Finding parser (`parseAIResponse`) -/

/-- Case-insensitive prefix test: does `s` start with `tag` (given in
lower case), compared after lower-casing?  Models a match of the regex
`tag` with the `i` flag anchored at the current scan position. -/
def ciHasPrefix (tag s : JStr) : Bool :=
  (s.take tag.length).map Char.toLower == tag

/-- The block separator of `parseAIResponse`: `response.split(/File: /i)`. -/
def fileTag : JStr := ['f', 'i', 'l', 'e', ':', ' ']

/-- The issue field marker, matched case-insensitively. -/
def issueTag : JStr := ['i', 's', 's', 'u', 'e', ':', ' ']

/-- The suggestion field marker, matched case-insensitively. -/
def suggestionTag : JStr := ['s', 'u', 'g', 'g', 'e', 's', 't', 'i', 'o', 'n', ':', ' ']

/-- Scanner for `response.split(/File: /i)`: cuts the input at every
case-insensitive occurrence of `"File: "`, consuming the separator.
`cur` holds the characters of the current piece in reverse; `skip` counts
separator characters still to be consumed after a cut, so the recursion
is structural in the input. -/
def splitFileGo : JStr → JStr → Nat → List JStr
  | [], cur, _ => [cur.reverse]
  | _ :: rest, cur, skip + 1 => splitFileGo rest cur skip
  | c :: rest, cur, 0 =>
    if ciHasPrefix fileTag (c :: rest) then
      cur.reverse :: splitFileGo rest [] (fileTag.length - 1)
    else
      splitFileGo rest (c :: cur) 0

/-- `block.match(/⟨tag⟩(.*)/i)`: scan for the first case-insensitive
occurrence of `tag` and return the capture `(.*)` — the characters that
follow, up to the next line terminator. -/
def matchTag (tag : JStr) : JStr → Option JStr
  | [] => none
  | c :: rest =>
    if ciHasPrefix tag (c :: rest) then
      some (((c :: rest).drop tag.length).takeWhile (fun ch => !isLineTerm ch))
    else
      matchTag tag rest

/-- The loop body of `parseAIResponse` for one block: take the first line
as the file name and the `Issue:` / `Suggestion:` captures; `none` when
any of the three is missing (`if (file && issueMatch && suggestionMatch)`).
No `severity` property is set on the pushed object. -/
def parseExtract (block : JStr) : Option Finding :=
  let file := jsTrim ((block.splitOn '\n').head?.getD [])
  if file.isEmpty then none
  else
    match matchTag issueTag block, matchTag suggestionTag block with
    | some iv, some sv =>
      some { file := String.mk file, issue := String.mk (jsTrim iv),
             suggestion := String.mk (jsTrim sv), severity := none }
    | _, _ => none

/-- `parseAIResponse` (src/unnamed/part_003 lines 8–28): split the raw
reply on `/File: /i`, drop blocks that trim to the empty string, and run
the extraction loop body over the remaining blocks, keeping the findings
of the well-formed ones. -/
def parseAIResponse (response : JStr) : List Finding :=
  ((splitFileGo response [] 0).filter (fun b => !(jsTrim b).isEmpty)).filterMap parseExtract

/-- A block is well-formed when it has a nonempty (trimmed) first line,
an `Issue:` line and a `Suggestion:` line. -/
def blockWellFormed (block : JStr) : Bool :=
  !(jsTrim ((block.splitOn '\n').head?.getD [])).isEmpty &&
  (matchTag issueTag block).isSome && (matchTag suggestionTag block).isSome

/-- The finding extracted from a well-formed block. -/
def blockFinding (block : JStr) : Finding :=
  { file := String.mk (jsTrim ((block.splitOn '\n').head?.getD []))
    issue := String.mk (jsTrim ((matchTag issueTag block).getD []))
    suggestion := String.mk (jsTrim ((matchTag suggestionTag block).getD []))
    severity := none }

/-! ### Report formatter (src/unnamed/part_004) -/

/-- The `summary` object computed by `formatJSON` (lines 15–20). -/
structure Summary where
  totalIssues : Nat
  errors : Nat
  warnings : Nat
  info : Nat
deriving DecidableEq, Repr

/-- The severity tallies of `formatJSON` (and `formatText`): strict
comparisons of the `severity` field against the severity literals. -/
def formatJSONSummary (issues : List Finding) : Summary :=
  { totalIssues := issues.length
    errors := (issues.filter (fun i => i.severity == some "error")).length
    warnings := (issues.filter (fun i =>
      i.severity == some "warn" || i.severity == some "warning")).length
    info := (issues.filter (fun i => i.severity == some "info")).length }

/-- `escapeXml` (lines 190–198), transcribed replacement by replacement:
`&` ↦ `&amp;`, `<` ↦ `<`, `>` ↦ `>`, `"` ↦ `"`, `'` ↦ `&apos;`.
The middle three replacements in the source replace each character with
itself. -/
def escapeXml (str : String) : String :=
  if str = "" then "" else
  String.mk ((((((str.toList.flatMap
    (fun c => if c = '&' then "&amp;".toList else [c])).flatMap
    (fun c => if c = '<' then ['<'] else [c])).flatMap
    (fun c => if c = '>' then ['>'] else [c])).flatMap
    (fun c => if c = '"' then ['"'] else [c])).flatMap
    (fun c => if c = '\'' then "&apos;".toList else [c])))

/-- The options record destructured by `getExitCode`. -/
structure ExitOptions where
  failOnError : Bool := false
  failOnWarn : Bool := false
  severity : Option String := none
deriving DecidableEq, Repr

/-- `getExitCode` (lines 206–229): severity-filter checks first, then the
fail-on flags, else 0. -/
def getExitCode (issues : List Finding) (options : ExitOptions) : Nat :=
  let errors := (issues.filter (fun i => i.severity == some "error")).length
  let warnings := (issues.filter (fun i =>
    i.severity == some "warn" || i.severity == some "warning")).length
  if options.severity = some "error" ∧ 0 < errors then 1
  else if options.severity = some "warn" ∧ 0 < warnings then 1
  else if options.failOnError ∧ 0 < errors then 1
  else if options.failOnWarn ∧ (0 < warnings ∨ 0 < errors) then 1
  else 0

/-- The alias table of `filterBySeverity` (lines 240–247), including the
`|| [severity.toLowerCase()]` fallback for unknown keys. -/
def severityAliases (s : String) : List String :=
  if s = "error" then ["error"]
  else if s = "warn" then ["warn", "warning"]
  else if s = "warning" then ["warn", "warning"]
  else if s = "info" then ["info"]
  else [s]

/-- JavaScript `str.toLowerCase()` on the ASCII range, character by
character. -/
def jsToLower (s : String) : String :=
  String.mk (s.toList.map Char.toLower)

/-- `filterBySeverity` (lines 237–249).  A `none` (or empty-string, both
falsy) severity argument returns the input unchanged; otherwise keep the
issues whose `severity` is in the alias class of the argument. -/
def filterBySeverity (issues : List Finding) (severity : Option String) : List Finding :=
  match severity with
  | none => issues
  | some s =>
    if s = "" then issues
    else
      let allowed := (severityAliases (jsToLower s)).map some
      issues.filter (fun i => allowed.contains i.severity)

/-! ### Diff segmenter (src/unnamed/part_001, `getDiffChunks`) -/

/-- `MAX_DIFF_SIZE` (part_001 line 7). -/
def MAX_DIFF_SIZE : Nat := 30000

/-- The per-file boundary marker `"diff --git "` of the split regex. -/
def gitMarker : JStr := ['d', 'i', 'f', 'f', ' ', '-', '-', 'g', 'i', 't', ' ']

/-- Scanner for `diff.split(/^diff --git /m)`: cuts at every occurrence of
`gitMarker` located at the start of the string or right after a line
terminator (`atStart` tracks that), consuming the marker.  `cur` holds the
current piece in reverse; `skip` counts marker characters still to be
consumed after a cut, keeping the recursion structural. -/
def splitGo : JStr → JStr → Bool → Nat → List JStr
  | [], cur, _, _ => [cur.reverse]
  | c :: rest, cur, _, skip + 1 => splitGo rest cur (isLineTerm c) skip
  | c :: rest, cur, atStart, 0 =>
    if atStart && gitMarker.isPrefixOf (c :: rest) then
      cur.reverse :: splitGo rest [] (isLineTerm c) (gitMarker.length - 1)
    else
      splitGo rest (c :: cur) (isLineTerm c) 0

/-- `diff.split(/^diff --git /m).filter(Boolean)` (part_001 line 46). -/
def splitDiff (d : JStr) : List JStr :=
  (splitGo d [] true 0).filter (fun b => !b.isEmpty)

/-- The greedy packing loop of `getDiffChunks` (lines 50–64): re-prefix
each file section with the marker, seal the current chunk when appending
would exceed `MAX_DIFF_SIZE` and the chunk is nonempty, and push the last
chunk when nonempty. -/
def packLoop : List JStr → JStr → List JStr
  | [], cur => if cur.isEmpty then [] else [cur]
  | f :: fs, cur =>
    let fullFileDiff := gitMarker ++ f
    if MAX_DIFF_SIZE < cur.length + fullFileDiff.length ∧ 0 < cur.length then
      cur :: packLoop fs fullFileDiff
    else
      packLoop fs (cur ++ fullFileDiff)

/-- `getDiffChunks` (part_001 lines 42–67). -/
def getDiffChunks (diff : JStr) : List JStr :=
  if diff.isEmpty then [] else packLoop (splitDiff diff) []

/-- Concatenation of file sections back into diff text: each section is
prefixed with the `"diff --git "` marker it was split on. -/
def renderFiles (fs : List JStr) : JStr :=
  (fs.map (fun f => gitMarker ++ f)).flatten

/-- The packing loop lifted to lists of file sections: the chunks of
`packLoop` are exactly the `renderFiles` images of these groups. -/
def packGroups : List JStr → List JStr → List (List JStr)
  | [], cur => if cur.isEmpty then [] else [cur]
  | f :: fs, cur =>
    if MAX_DIFF_SIZE < (renderFiles cur).length + (gitMarker ++ f).length ∧
        0 < (renderFiles cur).length then
      cur :: packGroups fs [f]
    else
      packGroups fs (cur ++ [f])

/-- The multiline-anchor flag after scanning `f` starting from `flag`:
`true` exactly when the last character scanned is a line terminator. -/
def endFlag (f : JStr) (flag : Bool) : Bool :=
  f.foldl (fun _ c => isLineTerm c) flag

/-- No split fires strictly inside this file section: scanning `f` with
the anchor flag initialized to `flag`, at no position does the flag hold
with the marker matching ahead (the continuation being either the end of
the diff or a following `gitMarker`-prefixed section, which the appended
`gitMarker` over-approximates). -/
def noFire : JStr → Bool → Bool
  | [], _ => true
  | c :: rest, flag =>
    (!(flag && gitMarker.isPrefixOf ((c :: rest) ++ gitMarker))) &&
    noFire rest (isLineTerm c)

/-- Well-formed file-section lists: every section is nonempty and has no
internal line-start marker occurrence, and every section but the last ends
with a newline (so the next marker sits at a line start). -/
def chainOK : List JStr → Bool
  | [] => true
  | [f] => !f.isEmpty && noFire f false
  | f :: fs => !f.isEmpty && noFire f false && (f.getLast? == some '\n') && chainOK fs

/-! ### Batch dispatch loops (src/unnamed/part_011) -/

/-- `CONCURRENCY_LIMIT` (part_011 lines 955 and 1322). -/
def CONCURRENCY_LIMIT : Nat := 3

/-- The windows `chunks.slice(i, i + CONCURRENCY_LIMIT)` of the dispatch
loops, for the source's fixed limit of 3. -/
def windows {α : Type} : List α → List (List α)
  | [] => []
  | [a] => [[a]]
  | [a, b] => [[a, b]]
  | a :: b :: c :: rest => [a, b, c] :: windows rest

/-- `Promise.all` over one window of `reviewCode` calls: all replies in
order, or the error of a failing call. -/
def runWindow {ε : Type} (reviewCode : JStr → Except ε JStr) : List JStr → Except ε (List JStr)
  | [] => .ok []
  | s :: ss =>
    match reviewCode s, runWindow reviewCode ss with
    | .ok r, .ok rs => .ok (r :: rs)
    | .error e, _ => .error e
    | .ok _, .error e => .error e

/-- The interactive review batch loop (part_011 lines 1325–1354): parse
and collect each window's replies; on a window failure re-raise only when
the whole chunk list fits within `CONCURRENCY_LIMIT`, otherwise log and
continue with the next window. -/
def mainBatchesGo {ε : Type} (reviewCode : JStr → Except ε JStr) (single : Bool) :
    List (List JStr) → List Finding → Except ε (List Finding)
  | [], acc => .ok acc
  | w :: ws, acc =>
    match runWindow reviewCode w with
    | .ok raws => mainBatchesGo reviewCode single ws (acc ++ (raws.map parseAIResponse).flatten)
    | .error e =>
      if single then .error e else mainBatchesGo reviewCode single ws acc

/-- The interactive review run over all windows of `chunks`. -/
def mainBatches {ε : Type} (reviewCode : JStr → Except ε JStr) (chunks : List JStr) :
    Except ε (List Finding) :=
  mainBatchesGo reviewCode (chunks.length ≤ CONCURRENCY_LIMIT) (windows chunks) []

/-- The CI batch loop (`handleCICommand`, part_011 lines 958–977): same
collection, but any window failure calls `process.exit(1)` — modelled as
an `Except.error` carrying the exit code 1 — regardless of the number of
windows. -/
def ciBatchesGo {ε : Type} (reviewCode : JStr → Except ε JStr) :
    List (List JStr) → List Finding → Except Nat (List Finding)
  | [], acc => .ok acc
  | w :: ws, acc =>
    match runWindow reviewCode w with
    | .ok raws => ciBatchesGo reviewCode ws (acc ++ (raws.map parseAIResponse).flatten)
    | .error _ => .error 1

/-- The CI run over all windows of `chunks`. -/
def ciBatches {ε : Type} (reviewCode : JStr → Except ε JStr) (chunks : List JStr) :
    Except Nat (List Finding) :=
  ciBatchesGo reviewCode (windows chunks) []

/-- An oversized file section: 29991 characters, so that prefixing the
eleven-character marker exceeds `MAX_DIFF_SIZE`. -/
def bigFile : JStr := List.replicate 29990 'a' ++ ['\n']

/-- A four-chunk segment list: two concurrency windows of the dispatch
loops. -/
def cexChunks : List JStr := [['a'], ['b'], ['c'], ['d']]

/-- A reviewer oracle that fails on the first chunk and succeeds on the
others. -/
def cexOracle : JStr → Except String JStr :=
  fun s => if s = ['a'] then .error "boom" else .ok ['o']

/-! ### Helper lemmas -/

theorem length_filter_pos_iff {p : Finding → Bool} {l : List Finding} :
    0 < (l.filter p).length ↔ ∃ i ∈ l, p i = true := by
  rw [List.length_pos, Ne, List.filter_eq_nil_iff]
  push_neg
  simp

theorem parseExtract_severity {b : JStr} {f : Finding}
    (h : parseExtract b = some f) : f.severity = none := by
  simp only [parseExtract] at h
  split at h
  · exact absurd h (by simp)
  · split at h
    · cases h; rfl
    · exact absurd h (by simp)

theorem severity_none_of_mem_parse {resp : JStr} {f : Finding}
    (h : f ∈ parseAIResponse resp) : f.severity = none := by
  simp only [parseAIResponse, List.mem_filterMap] at h
  obtain ⟨b, -, hb⟩ := h
  exact parseExtract_severity hb

theorem filterMap_if_eq_filter_map {α β : Type} (p : α → Bool) (g : α → β)
    (f : α → Option β) (hf : ∀ a, f a = if p a then some (g a) else none)
    (l : List α) : l.filterMap f = (l.filter p).map g := by
  induction l with
  | nil => rfl
  | cons a t ih =>
    by_cases h : p a <;> simp [List.filterMap_cons, List.filter_cons, hf a, h, ih]

theorem parseExtract_eq_wellFormed (b : JStr) :
    parseExtract b = if blockWellFormed b then some (blockFinding b) else none := by
  simp only [parseExtract, blockWellFormed, blockFinding]
  by_cases h1 : (jsTrim ((b.splitOn '\n').head?.getD [])).isEmpty
  · rw [List.isEmpty_iff] at h1
    simp [h1]
  · rw [List.isEmpty_iff] at h1
    cases h2 : matchTag issueTag b <;> cases h3 : matchTag suggestionTag b <;>
      simp [h1, h2, h3]

/-- Claim C7: for every input string the finding parser terminates without
throwing (it is a total function) and returns exactly the findings of the
well-formed blocks — a block lacking file identity, issue description or
suggestion is omitted, and each well-formed block yields one Finding with
its fields correctly extracted; in particular the example input with one
well-formed block and one block missing a suggestion yields exactly one
Finding. -/
theorem parseAIResponse_robust :
    (∀ response : JStr, parseAIResponse response =
      (((splitFileGo response [] 0).filter (fun b => !(jsTrim b).isEmpty)).filter
        blockWellFormed).map blockFinding) ∧
    parseAIResponse "File: a.js\nIssue: bad\nSuggestion: fix\nFile: b.js\nIssue: nosugg\n".toList =
      [{ file := "a.js", issue := "bad", suggestion := "fix", severity := none }] := by
  constructor
  · intro response
    exact filterMap_if_eq_filter_map blockWellFormed blockFinding parseExtract
      parseExtract_eq_wellFormed _
  · decide

/-- Claim C3 counterexample: on a concrete well-formed oracle reply whose
text encodes no severity, the parsed finding carries no severity at all
(severity is `none`), refuting the claim that it would carry severity
warn. -/
theorem parseAIResponse_no_warn_default :
    parseAIResponse "File: a.js\nIssue: bad\nSuggestion: fix".toList =
      [{ file := "a.js", issue := "bad", suggestion := "fix", severity := none }] ∧
    ¬ (∀ f ∈ parseAIResponse "File: a.js\nIssue: bad\nSuggestion: fix".toList,
        f.severity = some "warn") := by
  constructor
  · decide
  · decide

/-- Claim C3 as amended: every Finding produced by parseAIResponse has no
severity field at all (severity is `none`); the parser reads no severity
from the oracle text and applies no warn default. -/
theorem parseAIResponse_severity_absent (response : JStr) (f : Finding)
    (h : f ∈ parseAIResponse response) : f.severity = none :=
  severity_none_of_mem_parse h

/-- Claim C3 witness: the amended theorem applied at a concrete reply and
finding. -/
theorem parseAIResponse_severity_absent_witness :
    ({ file := "a.js", issue := "bad", suggestion := "fix", severity := none } : Finding) ∈
      parseAIResponse "File: a.js\nIssue: bad\nSuggestion: fix".toList ∧
    ({ file := "a.js", issue := "bad", suggestion := "fix", severity := none } : Finding).severity
      = none :=
  ⟨by decide, parseAIResponse_severity_absent
    "File: a.js\nIssue: bad\nSuggestion: fix".toList
    { file := "a.js", issue := "bad", suggestion := "fix", severity := none }
    (by decide)⟩

/-- Claim C9: the structured-encoding summary buckets are strict severity
tallies, so a finding whose severity is absent or outside
error/warn/warning/info is counted in totalIssues but in none of the three
buckets; in particular for every finding list produced by parseAIResponse
(which sets no severity) all three buckets are 0 while totalIssues is the
list length. -/
theorem formatJSONSummary_buckets :
    (∀ issues : List Finding,
      (∀ i ∈ issues, i.severity ≠ some "error" ∧ i.severity ≠ some "warn" ∧
        i.severity ≠ some "warning" ∧ i.severity ≠ some "info") →
      formatJSONSummary issues = ⟨issues.length, 0, 0, 0⟩) ∧
    (∀ response : JStr, formatJSONSummary (parseAIResponse response) =
      ⟨(parseAIResponse response).length, 0, 0, 0⟩) := by
  have key : ∀ issues : List Finding,
      (∀ i ∈ issues, i.severity ≠ some "error" ∧ i.severity ≠ some "warn" ∧
        i.severity ≠ some "warning" ∧ i.severity ≠ some "info") →
      formatJSONSummary issues = ⟨issues.length, 0, 0, 0⟩ := by
    intro issues h
    have he : issues.filter (fun i => i.severity == some "error") = [] := by
      rw [List.filter_eq_nil_iff]
      intro i hi
      simp [(h i hi).1]
    have hw : issues.filter (fun i =>
        i.severity == some "warn" || i.severity == some "warning") = [] := by
      rw [List.filter_eq_nil_iff]
      intro i hi
      simp [(h i hi).2.1, (h i hi).2.2.1]
    have hn : issues.filter (fun i => i.severity == some "info") = [] := by
      rw [List.filter_eq_nil_iff]
      intro i hi
      simp [(h i hi).2.2.2]
    simp [formatJSONSummary, he, hw, hn]
  refine ⟨key, fun response => key _ ?_⟩
  intro i hi
  simp [severity_none_of_mem_parse hi]

/-- Claim C9 witness: the bucket theorem applied to a concrete
severity-free finding list. -/
theorem formatJSONSummary_buckets_witness :
    formatJSONSummary [{ file := "a", issue := "b", suggestion := "c", severity := none }] =
      ⟨1, 0, 0, 0⟩ :=
  formatJSONSummary_buckets.1 _ (by simp)

/-- Claim C2 evaluated on the code: escapeXml escapes only & and ' and
returns <, > and \" unchanged, so finding data containing those characters
reaches the markup output unescaped — the claim (all five characters
escaped) fails on the code. -/
theorem escapeXml_leaves_markup_unescaped :
    escapeXml "&" = "&amp;" ∧ escapeXml "'" = "&apos;" ∧
    escapeXml "<" = "<" ∧ escapeXml ">" = ">" ∧ escapeXml "\"" = "\"" ∧
    escapeXml "bad \"msg\" <tag>" = "bad \"msg\" <tag>" := by
  refine ⟨by decide, by decide, by decide, by decide, by decide, by decide⟩

/-- Claim C10: filterBySeverity returns an order-preserving sublist; a
none severity argument returns the input unchanged; warn and warning each
select findings tagged warn or warning; error and info select only
themselves. -/
theorem filterBySeverity_spec (issues : List Finding) :
    (∀ s : Option String, (filterBySeverity issues s).Sublist issues) ∧
    filterBySeverity issues none = issues ∧
    filterBySeverity issues (some "warn") =
      issues.filter (fun i => i.severity == some "warn" || i.severity == some "warning") ∧
    filterBySeverity issues (some "warning") =
      issues.filter (fun i => i.severity == some "warn" || i.severity == some "warning") ∧
    filterBySeverity issues (some "error") =
      issues.filter (fun i => i.severity == some "error") ∧
    filterBySeverity issues (some "info") =
      issues.filter (fun i => i.severity == some "info") := by
  refine ⟨?_, rfl, ?_, ?_, ?_, ?_⟩
  · intro s
    match s with
    | none => exact List.Sublist.refl _
    | some s =>
      simp only [filterBySeverity]
      split
      · exact List.Sublist.refl _
      · exact List.filter_sublist _
  · simp only [filterBySeverity]
    rw [if_neg (by decide),
      show severityAliases (jsToLower "warn") = ["warn", "warning"] from by decide]
    refine List.filter_congr fun i _ => ?_
    simp only [List.map_cons, List.map_nil, List.contains_cons]
    simp
  · simp only [filterBySeverity]
    rw [if_neg (by decide),
      show severityAliases (jsToLower "warning") = ["warn", "warning"] from by decide]
    refine List.filter_congr fun i _ => ?_
    simp only [List.map_cons, List.map_nil, List.contains_cons]
    simp
  · simp only [filterBySeverity]
    rw [if_neg (by decide),
      show severityAliases (jsToLower "error") = ["error"] from by decide]
    refine List.filter_congr fun i _ => ?_
    simp only [List.map_cons, List.map_nil, List.contains_cons]
    simp
  · simp only [filterBySeverity]
    rw [if_neg (by decide),
      show severityAliases (jsToLower "info") = ["info"] from by decide]
    refine List.filter_congr fun i _ => ?_
    simp only [List.map_cons, List.map_nil, List.contains_cons]
    simp

/-- Claim C1: getExitCode returns 1 exactly when the severity filter is
error and an error exists, or the filter is warn and a warn/warning
exists, or failOnError is set and an error exists, or failOnWarn is set
and a warning or error exists; it returns 0 in every other case, and in
particular with no flags and no filter it returns 0 for every findings
list. -/
theorem getExitCode_spec (issues : List Finding) (options : ExitOptions) :
    (getExitCode issues options = 1 ↔
      ((options.severity = some "error" ∧ ∃ i ∈ issues, i.severity = some "error") ∨
       (options.severity = some "warn" ∧
         ∃ i ∈ issues, i.severity = some "warn" ∨ i.severity = some "warning") ∨
       (options.failOnError = true ∧ ∃ i ∈ issues, i.severity = some "error") ∨
       (options.failOnWarn = true ∧ ∃ i ∈ issues,
         i.severity = some "warn" ∨ i.severity = some "warning" ∨
         i.severity = some "error"))) ∧
    (getExitCode issues options = 0 ↔
      ¬ ((options.severity = some "error" ∧ ∃ i ∈ issues, i.severity = some "error") ∨
       (options.severity = some "warn" ∧
         ∃ i ∈ issues, i.severity = some "warn" ∨ i.severity = some "warning") ∨
       (options.failOnError = true ∧ ∃ i ∈ issues, i.severity = some "error") ∨
       (options.failOnWarn = true ∧ ∃ i ∈ issues,
         i.severity = some "warn" ∨ i.severity = some "warning" ∨
         i.severity = some "error"))) ∧
    getExitCode issues { failOnError := false, failOnWarn := false, severity := none } = 0 := by
  have he : 0 < (issues.filter (fun i => i.severity == some "error")).length ↔
      ∃ i ∈ issues, i.severity = some "error" := by
    rw [length_filter_pos_iff]
    simp
  have hw : 0 < (issues.filter (fun i =>
      i.severity == some "warn" || i.severity == some "warning")).length ↔
      ∃ i ∈ issues, i.severity = some "warn" ∨ i.severity = some "warning" := by
    rw [length_filter_pos_iff]
    simp
  have hwe : (∃ i ∈ issues, i.severity = some "warn" ∨ i.severity = some "warning") ∨
      (∃ i ∈ issues, i.severity = some "error") ↔
      ∃ i ∈ issues, i.severity = some "warn" ∨ i.severity = some "warning" ∨
        i.severity = some "error" := by
    constructor
    · rintro (⟨i, hi, h⟩ | ⟨i, hi, h⟩)
      · exact ⟨i, hi, h.imp_right Or.inl⟩
      · exact ⟨i, hi, Or.inr (Or.inr h)⟩
    · rintro ⟨i, hi, h | h | h⟩
      · exact Or.inl ⟨i, hi, Or.inl h⟩
      · exact Or.inl ⟨i, hi, Or.inr h⟩
      · exact Or.inr ⟨i, hi, h⟩
  refine ⟨?_, ?_, by simp [getExitCode]⟩ <;>
  · simp only [getExitCode]
    split_ifs with h1 h2 h3 h4 <;> simp_all [he, hw, hwe]

/-! ### Segmenter lemmas -/

theorem endFlag_cons (c : Char) (ts : JStr) (flag : Bool) :
    endFlag (c :: ts) flag = endFlag ts (isLineTerm c) := rfl

theorem endFlag_concat (g : JStr) (c : Char) (flag : Bool) :
    endFlag (g ++ [c]) flag = isLineTerm c := by
  simp [endFlag, List.foldl_append]

theorem splitGo_skip (t : JStr) (X cur : JStr) (flag : Bool) :
    splitGo (t ++ X) cur flag t.length = splitGo X cur (endFlag t flag) 0 := by
  induction t generalizing flag with
  | nil => rfl
  | cons c ts ih =>
    show splitGo (ts ++ X) cur (isLineTerm c) ts.length = _
    rw [ih, endFlag_cons]

theorem splitGo_fire (X cur : JStr) :
    splitGo (gitMarker ++ X) cur true 0 = cur.reverse :: splitGo X [] false 0 := by
  have hp : (true && gitMarker.isPrefixOf (gitMarker ++ X)) = true := by
    rw [Bool.true_and, List.isPrefixOf_iff_prefix]
    exact List.prefix_append _ _
  show (if true && gitMarker.isPrefixOf (gitMarker ++ X) then
      cur.reverse :: splitGo (List.drop 1 gitMarker ++ X) [] (isLineTerm 'd') (gitMarker.length - 1)
    else splitGo (List.drop 1 gitMarker ++ X) ('d' :: cur) (isLineTerm 'd') 0) = _
  rw [hp, if_pos rfl]
  have hs := splitGo_skip (List.drop 1 gitMarker) X [] false
  norm_num [gitMarker] at hs ⊢
  exact hs

theorem prefix_transfer {s X : JStr}
    (hX : X = [] ∨ ∃ J, X = gitMarker ++ J)
    (h : gitMarker <+: s ++ X) : gitMarker <+: s ++ gitMarker := by
  rcases hX with rfl | ⟨J, rfl⟩
  · rw [List.append_nil] at h
    exact h.trans (List.prefix_append _ _)
  · have hlen : gitMarker.length ≤ (s ++ gitMarker).length := by
      simp
    rw [List.prefix_iff_eq_take] at h ⊢
    rw [← List.append_assoc, List.take_append_of_le_length hlen] at h
    exact h

theorem splitGo_passthrough (f : JStr) (flag : Bool) (X cur : JStr)
    (hnf : noFire f flag = true)
    (hX : X = [] ∨ ∃ J, X = gitMarker ++ J) :
    splitGo (f ++ X) cur flag 0 = splitGo X (f.reverse ++ cur) (endFlag f flag) 0 := by
  induction f generalizing flag cur with
  | nil => rfl
  | cons c cs ih =>
    simp only [noFire, Bool.and_eq_true, Bool.not_eq_true'] at hnf
    obtain ⟨hcond, hrest⟩ := hnf
    have hcond' : (flag && gitMarker.isPrefixOf ((c :: cs) ++ X)) = false := by
      cases hflag : flag with
      | false => rfl
      | true =>
        rw [hflag, Bool.true_and] at hcond
        rw [Bool.true_and]
        rw [Bool.eq_false_iff] at hcond ⊢
        intro hpre
        exact hcond (List.isPrefixOf_iff_prefix.mpr
          (prefix_transfer hX (List.isPrefixOf_iff_prefix.mp hpre)))
    show (if flag && gitMarker.isPrefixOf ((c :: cs) ++ X) then
        cur.reverse :: splitGo (cs ++ X) [] (isLineTerm c) (gitMarker.length - 1)
      else splitGo (cs ++ X) (c :: cur) (isLineTerm c) 0) = _
    rw [hcond', if_neg (by simp)]
    rw [ih (isLineTerm c) (c :: cur) hrest]
    rw [endFlag_cons]
    congr 1
    simp

theorem chainOK_single {f : JStr} (h : chainOK [f] = true) :
    f ≠ [] ∧ noFire f false = true := by
  simp only [chainOK, Bool.and_eq_true, Bool.not_eq_true'] at h
  exact ⟨fun hn => by simp [hn] at h, h.2⟩

theorem chainOK_cons_cons {f f2 : JStr} {fs : List JStr}
    (h : chainOK (f :: f2 :: fs) = true) :
    f ≠ [] ∧ noFire f false = true ∧ f.getLast? = some '\n' ∧
      chainOK (f2 :: fs) = true := by
  simp only [chainOK, Bool.and_eq_true, Bool.not_eq_true', beq_iff_eq] at h
  exact ⟨fun hn => by simp [hn] at h, h.1.1.2, h.1.2, h.2⟩

theorem chainOK_all_ne : ∀ {fs : List JStr}, chainOK fs = true → ∀ f ∈ fs, f ≠ [] := by
  intro fs
  induction fs with
  | nil => intro _ f hf; cases hf
  | cons g gs ih =>
    intro h f hf
    rcases List.mem_cons.mp hf with rfl | hf'
    · cases gs with
      | nil => exact (chainOK_single h).1
      | cons g2 gs' => exact (chainOK_cons_cons h).1
    · cases gs with
      | nil => cases hf'
      | cons g2 gs' => exact ih (chainOK_cons_cons h).2.2.2 f hf' 

theorem endFlag_of_last {f : JStr} (h : f.getLast? = some '\n') (flag : Bool) :
    endFlag f flag = true := by
  obtain ⟨g, rfl⟩ := List.getLast?_eq_some_iff.mp h
  rw [endFlag_concat]
  decide

theorem renderFiles_cons (f : JStr) (fs : List JStr) :
    renderFiles (f :: fs) = (gitMarker ++ f) ++ renderFiles fs := by
  simp [renderFiles]

theorem renderFiles_append (a b : List JStr) :
    renderFiles (a ++ b) = renderFiles a ++ renderFiles b := by
  simp [renderFiles]

theorem renderFiles_eq_nil_iff {g : List JStr} : renderFiles g = [] ↔ g = [] := by
  cases g with
  | nil => simp [renderFiles]
  | cons f fs => simp [renderFiles_cons, gitMarker]

theorem splitGo_render : ∀ (fs : List JStr) (f : JStr), chainOK (f :: fs) = true →
    splitGo (f ++ renderFiles fs) [] false 0 = f :: fs := by
  intro fs
  induction fs with
  | nil =>
    intro f h
    obtain ⟨-, hnf⟩ := chainOK_single h
    rw [show renderFiles [] = [] from rfl,
      splitGo_passthrough f false [] [] hnf (Or.inl rfl)]
    simp [splitGo]
  | cons f2 fs2 ih =>
    intro f h
    obtain ⟨-, hnf, hlast, hch⟩ := chainOK_cons_cons h
    rw [renderFiles_cons, List.append_assoc,
      splitGo_passthrough f false _ [] hnf (Or.inr ⟨_, rfl⟩),
      endFlag_of_last hlast, splitGo_fire, ih f2 hch]
    simp

theorem splitDiff_render (fs : List JStr) (h : chainOK fs = true) :
    splitDiff (renderFiles fs) = fs := by
  cases fs with
  | nil => rfl
  | cons f fs' =>
    unfold splitDiff
    rw [renderFiles_cons, List.append_assoc, splitGo_fire, splitGo_render fs' f h]
    rw [List.reverse_nil, List.filter_cons]
    simp only [List.isEmpty_nil, Bool.not_true, Bool.false_eq_true, if_false]
    exact List.filter_eq_self.mpr (fun a ha => by
      simpa [List.isEmpty_iff] using chainOK_all_ne h a ha)

theorem packLoop_flatten : ∀ (fs : List JStr) (cur : JStr),
    (packLoop fs cur).flatten = cur ++ renderFiles fs := by
  intro fs
  induction fs with
  | nil =>
    intro cur
    simp only [packLoop]
    split
    · next hc => simp [List.isEmpty_iff.mp hc, renderFiles]
    · simp [renderFiles]
  | cons f fs ih =>
    intro cur
    simp only [packLoop]
    split
    · simp [ih, renderFiles_cons, List.append_assoc]
    · simp [ih, renderFiles_cons, List.append_assoc]

theorem packLoop_groups : ∀ (fs g : List JStr),
    packLoop fs (renderFiles g) = (packGroups fs g).map renderFiles := by
  intro fs
  induction fs with
  | nil =>
    intro g
    simp only [packLoop, packGroups]
    by_cases hg : g = []
    · simp [hg, renderFiles]
    · rw [if_neg (by simpa [List.isEmpty_iff, renderFiles_eq_nil_iff] using hg),
        if_neg (by simpa [List.isEmpty_iff] using hg)]
      rfl
  | cons f fs ih =>
    intro g
    simp only [packLoop, packGroups]
    split
    · rw [show gitMarker ++ f = renderFiles [f] from by simp [renderFiles], ih [f]]
      rfl
    · rw [show renderFiles g ++ (gitMarker ++ f) = renderFiles (g ++ [f]) from by
        simp [renderFiles_append, renderFiles_cons, renderFiles]]
      exact ih (g ++ [f])

theorem packGroups_flatten : ∀ (fs g : List JStr),
    (packGroups fs g).flatten = g ++ fs := by
  intro fs
  induction fs with
  | nil =>
    intro g
    simp only [packGroups]
    split
    · next hc => simp [List.isEmpty_iff.mp hc]
    · simp
  | cons f fs ih =>
    intro g
    simp only [packGroups]
    split
    · simp [ih]
    · simp [ih]

theorem packGroups_bound : ∀ (fs g : List JStr),
    (2 ≤ g.length → (renderFiles g).length ≤ MAX_DIFF_SIZE) →
    ∀ gr ∈ packGroups fs g, 2 ≤ gr.length → (renderFiles gr).length ≤ MAX_DIFF_SIZE := by
  intro fs
  induction fs with
  | nil =>
    intro g hg gr hmem
    simp only [packGroups] at hmem
    split at hmem
    · cases hmem
    · rw [List.mem_singleton] at hmem
      subst hmem
      exact hg
  | cons f fs ih =>
    intro g hg gr hmem
    simp only [packGroups] at hmem
    split at hmem
    · rcases List.mem_cons.mp hmem with rfl | hmem'
      · exact hg
      · exact ih [f] (fun h2 => absurd h2 (by simp)) gr hmem'
    · next hneg =>
      refine ih (g ++ [f]) ?_ gr hmem
      rcases not_and_or.mp hneg with hle | hpos
      · intro _
        rw [renderFiles_append, List.length_append]
        push_neg at hle
        simpa [renderFiles] using hle
      · have hgnil : g = [] := renderFiles_eq_nil_iff.mp (by
          simpa using Nat.le_zero.mp (Nat.not_lt.mp hpos))
        subst hgnil
        intro h2
        exact absurd h2 (by simp)

theorem packGroups_oversize : ∀ (fs g : List JStr) (f : JStr),
    MAX_DIFF_SIZE < (gitMarker ++ f).length →
    (f ∈ g → g = [f]) →
    ∀ gr ∈ packGroups fs g, f ∈ gr → gr = [f] := by
  intro fs
  induction fs with
  | nil =>
    intro g f hbig hg gr hmem
    simp only [packGroups] at hmem
    split at hmem
    · cases hmem
    · rw [List.mem_singleton] at hmem
      subst hmem
      exact hg
  | cons f2 fs ih =>
    intro g f hbig hg gr hmem
    simp only [packGroups] at hmem
    split at hmem
    · rcases List.mem_cons.mp hmem with rfl | hmem'
      · exact fun hf => hg hf
      · refine ih [f2] f hbig ?_ gr hmem'
        intro hf
        rw [List.mem_singleton] at hf
        rw [hf]
    · next hneg =>
      refine ih (g ++ [f2]) f hbig ?_ gr hmem
      rcases not_and_or.mp hneg with hle | hpos
      · push_neg at hle
        intro hf
        rcases List.mem_append.mp hf with hfg | hf2
        · have hgf : g = [f] := hg hfg
          subst hgf
          exfalso
          have : (renderFiles [f]).length ≤ MAX_DIFF_SIZE := le_trans (Nat.le_add_right _ _) hle
          rw [show renderFiles [f] = gitMarker ++ f from by simp [renderFiles]] at this
          omega
        · rw [List.mem_singleton] at hf2
          subst hf2
          exfalso
          have : (gitMarker ++ f).length ≤ MAX_DIFF_SIZE := le_trans (Nat.le_add_left _ _) hle
          omega
      · have hgnil : g = [] := renderFiles_eq_nil_iff.mp (by
          simpa using Nat.le_zero.mp (Nat.not_lt.mp hpos))
        subst hgnil
        intro hf
        rw [List.nil_append] at hf ⊢
        rw [List.mem_singleton] at hf
        rw [hf]

theorem countP_mem_eq_count (f : JStr) : ∀ (gs : List (List JStr)),
    (∀ g ∈ gs, f ∈ g → g = [f]) →
    gs.countP (fun g => decide (f ∈ g)) = gs.flatten.count f := by
  intro gs
  induction gs with
  | nil => intro _; rfl
  | cons g gs ih =>
    intro h
    rw [List.countP_cons, List.flatten_cons, List.count_append]
    rw [ih (fun g' hg' => h g' (List.mem_cons_of_mem _ hg'))]
    by_cases hf : f ∈ g
    · have hgf : g = [f] := h g (List.mem_cons_self _ _) hf
      subst hgf
      simp [List.count_singleton]
      omega
    · rw [List.count_eq_zero.mpr hf]
      simp [hf]

theorem getDiffChunks_eq_groups (fs : List JStr) (h : chainOK fs = true) :
    getDiffChunks (renderFiles fs) = (packGroups fs []).map renderFiles := by
  cases fs with
  | nil => rfl
  | cons f fs' =>
    unfold getDiffChunks
    rw [if_neg (by simp [renderFiles_cons, gitMarker]), splitDiff_render _ h,
      show ([] : JStr) = renderFiles [] from rfl, packLoop_groups]

/-- Claim C4 counterexample: on the diff string \"hello\" (which does not
start with the per-file marker) the concatenation of the segments is
\"diff --git hello\", not the original diff — the splitter re-prefixes
every split piece with the marker, so reconstruction fails for strings
that are not marker-aligned. -/
theorem getDiffChunks_concat_counterexample :
    (getDiffChunks "hello".toList).flatten = "diff --git hello".toList ∧
    (getDiffChunks "hello".toList).flatten ≠ "hello".toList := by
  constructor
  · decide
  · decide

/-- Claim C4 as amended: for every diff that is a well-formed
concatenation of file-patches (each introduced by the \"diff --git \"
marker at a line start, nonempty, with no internal line-start marker
occurrence, and all but the last ending in a newline), concatenating, in
order, all segments returned by getDiffChunks yields exactly the original
diff content — no file-patch is dropped, duplicated, truncated or
altered. -/
theorem getDiffChunks_concat (fs : List JStr) (h : chainOK fs = true) :
    (getDiffChunks (renderFiles fs)).flatten = renderFiles fs := by
  cases fs with
  | nil => rfl
  | cons f fs' =>
    unfold getDiffChunks
    rw [if_neg (by simp [renderFiles_cons, gitMarker]), splitDiff_render _ h,
      packLoop_flatten]
    rfl

/-- Claim C4 witness: the reconstruction theorem applied to a concrete
one-file diff. -/
theorem getDiffChunks_concat_witness :
    chainOK ["a\n".toList] = true ∧
    (getDiffChunks (renderFiles ["a\n".toList])).flatten = renderFiles ["a\n".toList] :=
  ⟨by decide, getDiffChunks_concat _ (by decide)⟩

/-- Claim C5: on a well-formed diff the segments of getDiffChunks are the
renderings of the greedy packing groups, and every segment containing
more than one file-patch (a group of length at least two) has length at
most MAX_DIFF_SIZE. -/
theorem getDiffChunks_size_bound (fs : List JStr) (h : chainOK fs = true) :
    getDiffChunks (renderFiles fs) = (packGroups fs []).map renderFiles ∧
    ∀ g ∈ packGroups fs [], 2 ≤ g.length → (renderFiles g).length ≤ MAX_DIFF_SIZE :=
  ⟨getDiffChunks_eq_groups fs h,
   packGroups_bound fs [] (fun h2 => absurd h2 (by simp))⟩

/-- Claim C5 witness: the size-bound theorem applied to a concrete
two-file diff. -/
theorem getDiffChunks_size_bound_witness :
    chainOK ["a\n".toList, "b\n".toList] = true ∧
    (getDiffChunks (renderFiles ["a\n".toList, "b\n".toList]) =
      (packGroups ["a\n".toList, "b\n".toList] []).map renderFiles ∧
     ∀ g ∈ packGroups ["a\n".toList, "b\n".toList] [], 2 ≤ g.length →
       (renderFiles g).length ≤ MAX_DIFF_SIZE) :=
  ⟨by decide, getDiffChunks_size_bound _ (by decide)⟩

theorem noFire_replicate (n : Nat) :
    noFire (List.replicate n 'a' ++ ['\n']) false = true := by
  induction n with
  | zero => decide
  | succ n ih =>
    rw [List.replicate_succ, List.cons_append]
    have ha : isLineTerm 'a' = false := by decide
    simp [noFire, ha, ih]

theorem bigFile_isEmpty : bigFile.isEmpty = false := by
  cases hb : bigFile with
  | nil =>
    exfalso
    have := congrArg List.length hb
    rw [bigFile, List.length_append, List.length_replicate] at this
    simp only [List.length_cons, List.length_nil] at this
    omega
  | cons c cs => rfl

theorem chainOK_bigFile : chainOK [bigFile] = true := by
  simp only [chainOK, bigFile_isEmpty, noFire_replicate 29990, bigFile]
  rfl

/-- Claim C6: on a well-formed diff containing a file-patch whose marked
length exceeds MAX_DIFF_SIZE, the segments are the renderings of the
packing groups, the groups flatten back to the original file list (the
patch is never split, truncated or dropped), every group containing the
oversized patch is exactly that singleton patch, and the number of
segments containing it equals its number of occurrences in the diff —
for a patch occurring once, exactly one segment. -/
theorem getDiffChunks_oversize (fs : List JStr) (f : JStr) (h : chainOK fs = true)
    (_hmem : f ∈ fs) (hbig : MAX_DIFF_SIZE < (gitMarker ++ f).length) :
    getDiffChunks (renderFiles fs) = (packGroups fs []).map renderFiles ∧
    (packGroups fs []).flatten = fs ∧
    (∀ g ∈ packGroups fs [], f ∈ g → g = [f]) ∧
    (packGroups fs []).countP (fun g => decide (f ∈ g)) = fs.count f := by
  have hsing := packGroups_oversize fs [] f hbig (fun hf => absurd hf (List.not_mem_nil f))
  refine ⟨getDiffChunks_eq_groups fs h, packGroups_flatten fs [], hsing, ?_⟩
  rw [countP_mem_eq_count f _ hsing, packGroups_flatten fs []]
  rfl

/-- Claim C6 witness: the oversize theorem applied to a concrete
30001-character file section. -/
theorem getDiffChunks_oversize_witness :
    getDiffChunks (renderFiles [bigFile]) = (packGroups [bigFile] []).map renderFiles ∧
    (packGroups [bigFile] []).flatten = [bigFile] ∧
    (∀ g ∈ packGroups [bigFile] [], bigFile ∈ g → g = [bigFile]) ∧
    (packGroups [bigFile] []).countP (fun g => decide (bigFile ∈ g)) =
      [bigFile].count bigFile :=
  getDiffChunks_oversize [bigFile] bigFile chainOK_bigFile (by simp) (by
    rw [bigFile, List.length_append, List.length_append, List.length_replicate]
    decide)

/-! ### Dispatcher lemmas -/

theorem windows_short {α : Type} (l : List α) (h : l.length ≤ 3) :
    windows l = if l.isEmpty then [] else [l] := by
  cases l with
  | nil => rfl
  | cons a t => cases t with
    | nil => rfl
    | cons b t2 => cases t2 with
      | nil => rfl
      | cons c t3 => cases t3 with
        | nil => rfl
        | cons d t4 =>
          exfalso
          simp only [List.length_cons] at h
          omega

theorem mainBatchesGo_multi {ε : Type} (rc : JStr → Except ε JStr) :
    ∀ (ws : List (List JStr)) (acc : List Finding),
    mainBatchesGo rc false ws acc = .ok (acc ++
      (ws.filterMap (fun w => ((runWindow rc w).map
        (fun raws => (raws.map parseAIResponse).flatten)).toOption)).flatten) := by
  intro ws
  induction ws with
  | nil => intro acc; simp [mainBatchesGo]
  | cons w ws ih =>
    intro acc
    cases hw : runWindow rc w with
    | ok raws =>
      simp only [mainBatchesGo, hw]
      rw [ih]
      simp [hw, List.filterMap_cons, Except.map, Except.toOption, List.append_assoc]
    | error e =>
      simp only [mainBatchesGo, hw, Bool.false_eq_true, if_false]
      rw [ih]
      simp [hw, List.filterMap_cons, Except.map, Except.toOption]

theorem ciBatchesGo_spec {ε : Type} (rc : JStr → Except ε JStr) :
    ∀ (ws : List (List JStr)) (acc : List Finding),
    ciBatchesGo rc ws acc =
      (if ws.all (fun w => (runWindow rc w).toOption.isSome) then
        .ok (acc ++ (ws.map (fun w =>
          (((runWindow rc w).toOption.getD []).map parseAIResponse).flatten)).flatten)
      else .error 1) := by
  intro ws
  induction ws with
  | nil => intro acc; simp [ciBatchesGo]
  | cons w ws ih =>
    intro acc
    cases hw : runWindow rc w with
    | ok raws =>
      simp only [ciBatchesGo, hw]
      rw [ih]
      by_cases hall : ws.all (fun w => (runWindow rc w).toOption.isSome) = true
      · simp [hall, hw, Except.toOption, List.append_assoc]
      · simp only [Bool.not_eq_true] at hall
        simp [hall, hw, Except.toOption]
    | error e =>
      simp only [ciBatchesGo, hw]
      simp [hw, Except.toOption]

/-- Claim C8 as amended: in the interactive review loop a window failure
is fatal exactly when the whole chunk list fits within the concurrency
limit, and otherwise the run returns the concatenated findings of the
successful windows only; in the CI loop, however, any window failure
terminates the run with exit code 1 regardless of the number of
windows. -/
theorem batchLoops_failure_policy {ε : Type} (rc : JStr → Except ε JStr)
    (chunks : List JStr) :
    mainBatches rc chunks =
      (if chunks.length ≤ CONCURRENCY_LIMIT then
        (runWindow rc chunks).map (fun raws => (raws.map parseAIResponse).flatten)
      else .ok ((windows chunks).filterMap
          (fun w => ((runWindow rc w).map
            (fun raws => (raws.map parseAIResponse).flatten)).toOption)).flatten) ∧
    ciBatches rc chunks =
      (if (windows chunks).all (fun w => (runWindow rc w).toOption.isSome) then
        .ok ((windows chunks).map (fun w =>
          (((runWindow rc w).toOption.getD []).map parseAIResponse).flatten)).flatten
      else .error 1) := by
  constructor
  · by_cases hlen : chunks.length ≤ CONCURRENCY_LIMIT
    · rw [if_pos hlen]
      unfold mainBatches
      rw [windows_short chunks hlen]
      cases hc : chunks.isEmpty with
      | true =>
        rw [if_pos rfl]
        rw [List.isEmpty_iff.mp hc]
        simp [mainBatchesGo, runWindow, Except.map]
      | false =>
        rw [if_neg (by simp)]
        cases hw : runWindow rc chunks with
        | ok raws =>
          simp only [mainBatchesGo, hw]
          simp [Except.map]
        | error e =>
          simp only [mainBatchesGo, hw]
          rw [if_pos (by simp [decide_eq_true hlen])]
          simp [Except.map]
    · rw [if_neg hlen]
      unfold mainBatches
      rw [show (decide (chunks.length ≤ CONCURRENCY_LIMIT)) = false from by
        simp [hlen]]
      rw [mainBatchesGo_multi]
      rw [List.nil_append]
  · unfold ciBatches
    rw [ciBatchesGo_spec]
    rw [List.nil_append]

/-- Claim C8 counterexample: with four chunks (two windows) where the
first window fails and the second would succeed, the CI batch loop exits
with code 1 instead of continuing — refuting the claim that with more
than one window a failing window never aborts the run. -/
theorem ciBatches_aborts_despite_multiwindow :
    CONCURRENCY_LIMIT < cexChunks.length ∧
    windows cexChunks = [[['a'], ['b'], ['c']], [['d']]] ∧
    (runWindow cexOracle [['d']]).toOption.isSome = true ∧
    ciBatches cexOracle cexChunks = .error 1 := by
  refine ⟨by decide, by decide, by decide, by rfl⟩
